import Mathlib

/-!
Verification of the `thermal-print` driver (src/lib.rs) against its
natural-language specification.

The development is a shallow embedding of the driver: the session state
(`PState`), the observable effects (`Event`: bytes handed to the serial
transport and microsecond delays handed to the delay capability), and the
operations of the `Printer` impl, translated function by function from the
Rust source.  Machine integers are modelled as `Nat` with explicit `% 256`
(u8 wrap / `as u8` casts) and `% 2 ^ 32` (the `as u32` cast in `sleep`)
where overflow or truncation is possible.  The serial port is modelled as
an oracle `port : Nat → Bool` giving the success of the k-th write; a
failed write (Rust `Err(_)`, surfaced by `unwrap` panics in the callers)
is modelled by `Except.error PrintError.transmissionFailure`.
-/

set_option maxRecDepth 4000

namespace ThermalPrint

/-- Escape control byte (`const ESC: u8 = 0x1B`). -/
def ESC : Nat := 0x1B

/-- Horizontal tab byte (`const HT: u8 = 0x09`). -/
def HT : Nat := 0x09

/-- Exclamation mark (`const MARK: u8 = 0x21`). -/
def MARK : Nat := 0x21

/-- Group separator (`const GS: u8 = 0x1D`). -/
def GS : Nat := 0x1D

/-- Tab stop width in columns (`const TAB_WIDTH: u8 = 4`). -/
def TAB_WIDTH : Nat := 4

/-- Brightness cutoff for bitmap pixels (`const PIXEL_COLOR_CUTOFF: u32 = 0x0000FFFF`). -/
def PIXEL_COLOR_CUTOFF : Nat := 0x0000FFFF

/-- Configured line data rate (`const BAUDRATE: u64 = 19_200`). -/
def BAUDRATE : Nat := 19200

/-- Maximum number of horizontal dots (`const DOT_WIDTH: u32 = 384`). -/
def DOT_WIDTH : Nat := 384

/-- Per-byte transmission time estimate:
`const BYTE_TIME_MICROS: u64 = ((11 * 1000000) + (BAUDRATE / 2)) / BAUDRATE`.
Rust `u64` division is floor division and no intermediate value comes near
`2 ^ 64`, so plain `Nat` arithmetic is exact. -/
def BYTE_TIME_MICROS : Nat := ((11 * 1000000) + (BAUDRATE / 2)) / BAUDRATE

/-- Mode register command lead-in (`const MODE_SEQUENCE: [u8; 2] = [ESC, MARK]`). -/
def MODE_SEQUENCE : List Nat := [ESC, MARK]

/-- Redundant per-flag command lead-ins, in source order inverse, upside-down,
emphasized (`const MODE_ORDER: [[u8; 2]; 3]`). -/
def MODE_ORDER : List (List Nat) := [[GS, 0x42], [ESC, 0x7B], [ESC, 0x45]]

/-- Wrap-around modulus of `u8` arithmetic and `as u8` casts. -/
def U8MOD : Nat := 256

/-- Wrap-around modulus of the `as u32` cast applied inside `sleep`. -/
def U32MOD : Nat := 2 ^ 32

/-- The two hardware fonts (`enum Font`). -/
inductive Font where
  | FontA
  | FontB
deriving DecidableEq, Repr

/-- Print mode flags (`struct PrintMode`), fields in source order. -/
structure PrintMode where
  font : Font
  inverse : Bool
  upside_down : Bool
  emph : Bool
  double_height : Bool
  double_width : Bool
  delete_line : Bool
deriving DecidableEq, Repr

/-- The mode byte encoding (`impl Into<u8> for PrintMode`), translated
branch by branch: `FontA` performs `mode &= 1 << 0` on the zero
accumulator and every set flag ORs in its bit. -/
def PrintMode.intoU8 (m : PrintMode) : Nat :=
  let mode : Nat := 0
  let mode : Nat :=
    match m.font with
    | Font.FontA => Nat.land mode (1 <<< 0)
    | Font.FontB => Nat.lor mode (1 <<< 0)
  let mode := if m.inverse then Nat.lor mode (1 <<< 1) else mode
  let mode := if m.upside_down then Nat.lor mode (1 <<< 2) else mode
  let mode := if m.emph then Nat.lor mode (1 <<< 3) else mode
  let mode := if m.double_height then Nat.lor mode (1 <<< 4) else mode
  let mode := if m.double_width then Nat.lor mode (1 <<< 5) else mode
  let mode := if m.delete_line then Nat.lor mode (1 <<< 6) else mode
  mode

/-- Heat configuration (`struct PrintSettings`); each field is a byte value. -/
structure PrintSettings where
  dots : Nat
  time : Nat
  interval : Nat
deriving DecidableEq, Repr

/-- The 3-byte heat settings encoding (`impl Into<[u8; 3]> for PrintSettings`). -/
def PrintSettings.intoBytes (p : PrintSettings) : List Nat :=
  [p.dots, p.time, p.interval]

/-- Raster bit-image modes (`enum RasterBitImageMode`, discriminants 0..3). -/
inductive RasterBitImageMode where
  | Normal
  | DoubleWidth
  | DoubleHeight
  | Quadruple
deriving DecidableEq, Repr

/-- Wire discriminant of a raster mode (`#[derive(IntoPrimitive)] #[repr(u8)]`). -/
def RasterBitImageMode.intoU8 : RasterBitImageMode → Nat
  | RasterBitImageMode.Normal => 0
  | RasterBitImageMode.DoubleWidth => 1
  | RasterBitImageMode.DoubleHeight => 2
  | RasterBitImageMode.Quadruple => 3

/-- The single failure kind of the driver.  In the source a failed serial
write is `Err(())` from `write_byte` / `write_one`, and every multi-byte
caller `unwrap`s it (a panic that ends the session); the spec names this
kind TransmissionFailure. -/
inductive PrintError where
  | transmissionFailure
deriving DecidableEq, Repr

/-- Observable effects of the driver: a byte handed to `serial.write`, or a
duration handed to `delay.delay_us`. -/
inductive Event where
  | serialWrite (b : Nat)
  | delayUs (d : Nat)
deriving DecidableEq, Repr

/-- The mutable fields of `struct Printer` other than the two capabilities,
in source order.  All are `u8` except `dot_print_time`/`dot_feed_time`
(`u32`) and `prev_byte` (a `char`, stored as its code point — a `u8` cast
to `char` keeps its numeric value). -/
structure PState where
  prev_byte : Nat
  max_column : Nat
  char_height : Nat
  char_width : Nat
  line_spacing : Nat
  barcode_height : Nat
  dot_print_time : Nat
  dot_feed_time : Nat
  current_column : Nat
  print_mode : Nat
deriving DecidableEq, Repr

/-- A session: the printer state plus the two injected capabilities.  The
serial port is an oracle giving the success of the k-th byte write
(`writes` counts them); `trace` records every effect in order. -/
structure Sess where
  port : Nat → Bool
  writes : Nat
  st : PState
  trace : List Event

/-- Field values of `Printer::new`. -/
def newPState : PState :=
  { prev_byte := 10
    max_column := 32
    char_height := 24
    char_width := 12
    line_spacing := 6
    barcode_height := 162
    dot_print_time := 0
    dot_feed_time := 0
    current_column := 0
    print_mode := 0 }

/-- A fresh session over a given port oracle, as built by `Printer::new`. -/
def newSess (port : Nat → Bool) : Sess :=
  { port := port, writes := 0, st := newPState, trace := [] }

/-- A port on which every write succeeds. -/
def okPort : Nat → Bool := fun _ => true

/-- A port on which every write fails. -/
def failPort : Nat → Bool := fun _ => false

/-- Hand one byte to `serial.write`: the byte always reaches the transport
and the oracle decides whether the write succeeded. -/
def serial_write (c : Sess) (byte : Nat) : Sess × Bool :=
  ({ c with writes := c.writes + 1, trace := c.trace ++ [Event.serialWrite byte] },
   c.port c.writes)

/-- `Printer::sleep`: `self.delay.delay_us(duration as u32)`.  The `as u32`
cast truncates the `u64` duration. -/
def sleep (c : Sess) (duration : Nat) : Sess :=
  { c with trace := c.trace ++ [Event.delayUs (duration % U32MOD)] }

/-- `Printer::write_byte`: write the byte, sleep `BYTE_TIME_MICROS`, then
surface the write's result. -/
def write_byte (c : Sess) (byte : Nat) : Sess × Except PrintError Unit :=
  let r := serial_write c byte
  let c1 := sleep r.1 BYTE_TIME_MICROS
  (c1, if r.2 then Except.ok () else Except.error PrintError.transmissionFailure)

/-- `Printer::write_bytes`: write each byte via `write_byte`, `unwrap`ping —
a failure aborts the loop (panic), modelled by propagating the error. -/
def write_bytes : Sess → List Nat → Sess × Except PrintError Unit
  | c, [] => (c, Except.ok ())
  | c, b :: rest =>
    match write_byte c b with
    | (c1, Except.ok _) => write_bytes c1 rest
    | (c1, Except.error e) => (c1, Except.error e)

/-- The wait duration computed by `Printer::write_one` before mutating the
cursor, reading the pre-call state (the source computes it from the fields
it is about to overwrite). -/
def write_one_wait (s : PState) (byte : Nat) : Nat :=
  if byte == 10 || s.current_column == s.max_column then
    if s.prev_byte == 10 then
      BYTE_TIME_MICROS + (s.char_height + s.line_spacing) * s.dot_feed_time
    else
      BYTE_TIME_MICROS + (s.char_height * s.dot_print_time + s.line_spacing * s.dot_feed_time)
  else
    BYTE_TIME_MICROS

/-- The cursor mutation performed by `Printer::write_one`: a line break (or
a forced wrap at `current_column == max_column`) resets the column and
marks the previous byte as a line break; otherwise a tab skips
`current_column / TAB_WIDTH + 1` extra columns and every byte advances the
column by one (`u8` additions, hence `% U8MOD`). -/
def write_one_cursor (s : PState) (byte : Nat) : PState :=
  if byte == 10 || s.current_column == s.max_column then
    { s with current_column := 0, prev_byte := 10 }
  else
    let s :=
      if byte == HT then
        { s with current_column :=
            (s.current_column + (s.current_column / TAB_WIDTH + 1)) % U8MOD }
      else s
    { s with current_column := (s.current_column + 1) % U8MOD, prev_byte := byte }

/-- `Printer::write_one`: write the byte, update the cursor, sleep for the
computed wait, then surface the write's result. -/
def write_one (c : Sess) (byte : Nat) : Sess × Except PrintError Unit :=
  let r := serial_write c byte
  let w := write_one_wait r.1.st byte
  let c1 := { r.1 with st := write_one_cursor r.1.st byte }
  let c2 := sleep c1 w
  (c2, if r.2 then Except.ok () else Except.error PrintError.transmissionFailure)

/-- `Printer::write`: the text path; each byte goes through `write_one` and
is `unwrap`ped. -/
def write : Sess → List Nat → Sess × Except PrintError Unit
  | c, [] => (c, Except.ok ())
  | c, b :: rest =>
    match write_one c b with
    | (c1, Except.ok _) => write c1 rest
    | (c1, Except.error e) => (c1, Except.error e)

/-- `Printer::adjust_char_values`: recompute font metrics and `max_column`
(`(DOT_WIDTH / char_width) as u8`). -/
def adjust_char_values (s : PState) (m : PrintMode) : PState :=
  let ch : Nat :=
    match m.font with
    | Font.FontA => 24
    | Font.FontB => 17
  let cw : Nat :=
    match m.font with
    | Font.FontA => 12
    | Font.FontB => 9
  let cw := if m.double_width then cw * 2 else cw
  let ch := if m.double_height then ch * 2 else ch
  { s with char_height := ch, char_width := cw,
           max_column := (DOT_WIDTH / cw) % U8MOD }

/-- The `for pair in zip(MODE_ORDER, modes)` loop of `set_print_mode`. -/
def mode_flag_loop : Sess → List (List Nat × Nat) → Sess × Except PrintError Unit
  | c, [] => (c, Except.ok ())
  | c, (cmd, n) :: rest =>
    match write_bytes c cmd with
    | (c1, Except.error e) => (c1, Except.error e)
    | (c1, Except.ok _) =>
      match write_byte c1 n with
      | (c2, Except.error e) => (c2, Except.error e)
      | (c2, Except.ok _) => mode_flag_loop c2 rest

/-- `Printer::set_print_mode`: store the mode byte, emit the mode register
frame, then the three redundant per-flag commands, then adjust metrics. -/
def set_print_mode (c : Sess) (m : PrintMode) : Sess × Except PrintError Unit :=
  let mode_byte := m.intoU8
  let c0 := { c with st := { c.st with print_mode := mode_byte } }
  match write_bytes c0 MODE_SEQUENCE with
  | (c1, Except.error e) => (c1, Except.error e)
  | (c1, Except.ok _) =>
    match write_byte c1 mode_byte with
    | (c2, Except.error e) => (c2, Except.error e)
    | (c2, Except.ok _) =>
      let modes : List Nat :=
        [if m.inverse then 1 else 0, if m.upside_down then 1 else 0,
         if m.emph then 1 else 0]
      match mode_flag_loop c2 (MODE_ORDER.zip modes) with
      | (c3, Except.error e) => (c3, Except.error e)
      | (c3, Except.ok _) => ({ c3 with st := adjust_char_values c3.st m }, Except.ok ())

/-- `Printer::set_print_settings`: emit `[ESC, 0x37]` then the three
settings bytes. -/
def set_print_settings (c : Sess) (p : PrintSettings) : Sess × Except PrintError Unit :=
  let settings_bytes := p.intoBytes
  match write_bytes c [ESC, 0x37] with
  | (c1, Except.error e) => (c1, Except.error e)
  | (c1, Except.ok _) => write_bytes c1 settings_bytes

/-- Modelled from the spec: the repository ships no decoder for the
heat-settings frame — spec section 8 speaks of "encoding then decoding
(for test purposes)".  Decodes a wire frame `[ESC, 0x37, dots, time,
interval]` back into the settings triple. -/
def decode_print_settings (frame : List Nat) : Option PrintSettings :=
  match frame with
  | [a, b, d, t, i] =>
    if a == ESC && b == 0x37 then some ⟨d, t, i⟩ else none
  | _ => none

/-- `Printer::feed_n`: emit `[ESC, 0x4A, lines]`, sleep
`dot_feed_time * char_height`, then reset the cursor to start-of-line. -/
def feed_n (c : Sess) (lines : Nat) : Sess × Except PrintError Unit :=
  match write_bytes c [ESC, 0x4A, lines] with
  | (c1, Except.error e) => (c1, Except.error e)
  | (c1, Except.ok _) =>
    let c2 := sleep c1 (c1.st.dot_feed_time * c1.st.char_height)
    let c3 := { c2 with st := { c2.st with prev_byte := 10, current_column := 0 } }
    (c3, Except.ok ())

/-- The serial bytes of a trace, in order, delays dropped. -/
def sentBytes : List Event → List Nat
  | [] => []
  | Event.serialWrite b :: rest => b :: sentBytes rest
  | Event.delayUs _ :: rest => sentBytes rest

/-- A decoded raster image as `print_bitmap` consumes it: `tinybmp`'s
`RawBmp` reports a pixel size and iterates the raw color of every pixel
row-major, each row complete.  `rows` lists the raw color values row by
row. -/
structure Bmp where
  width : Nat
  height : Nat
  rows : List (List Nat)

/-- A pixel produces an ink dot when its raw color lies strictly below the
brightness cutoff (`pixel.color < PIXEL_COLOR_CUTOFF`). -/
def pixelBit (color : Nat) : Bool :=
  decide (color < PIXEL_COLOR_CUTOFF)

/-- Bits pushed for one pixel row: one bit per pixel, then — when the width
is not a byte multiple — `8 - width % 8` zero fill bits, exactly as the
source pushes them after the pixel in the last column. -/
def bmp_row_bits (width : Nat) (row : List Nat) : List Bool :=
  row.map pixelBit ++
    (if width % 8 ≠ 0 then List.replicate (8 - width % 8) false else [])

/-- All image bits in emission order. -/
def bmp_bits (bmp : Bmp) : List Bool :=
  (bmp.rows.map (bmp_row_bits bmp.width)).flatten

/-- MSB-first packing of a bit chunk into a byte value, as `bitvec`'s
`Msb0` raw slice stores it. -/
def byteOfBits (bits : List Bool) : Nat :=
  bits.foldl (fun acc bit => acc * 2 + (if bit then 1 else 0)) 0

/-- Split a bit stream into chunks of eight; a final partial chunk is
zero-padded at the tail (`bitvec` keeps unused bits of the last raw byte
zero).  Row padding keeps the stream length a byte multiple, so the last
case never fires for well-formed images. -/
def chunk8 : List Bool → List (List Bool)
  | b0 :: b1 :: b2 :: b3 :: b4 :: b5 :: b6 :: b7 :: rest =>
    [b0, b1, b2, b3, b4, b5, b6, b7] :: chunk8 rest
  | [] => []
  | rest => [rest ++ List.replicate (8 - rest.length) false]

/-- The packed data bytes of the image (`image_bits.as_raw_slice()`). -/
def bmp_bytes (bmp : Bmp) : List Nat :=
  (chunk8 (bmp_bits bmp)).map byteOfBits

/-- Bytes per pixel row:
`(x_bits / 8) as u8 + u8::from(x_bits % 8 != 0)` with `u8` wrap. -/
def bmp_x_bytes (x_bits : Nat) : Nat :=
  ((x_bits / 8) % U8MOD + (if x_bits % 8 ≠ 0 then 1 else 0)) % U8MOD

/-- The data emission loop of `print_bitmap`: each packed byte goes through
`write_byte` (`unwrap`ped), and after the byte at index `i` an extra sleep
of `dot_print_time + dot_feed_time` fires when `i as u8 % x_bytes == 0`. -/
def bitmapLoop : Sess → Nat → List Nat → Nat → Sess × Except PrintError Unit
  | c, _, [], _ => (c, Except.ok ())
  | c, x_bytes, b :: rest, i =>
    match write_byte c b with
    | (c1, Except.error e) => (c1, Except.error e)
    | (c1, Except.ok _) =>
      let c2 :=
        if (i % U8MOD) % x_bytes == 0 then
          sleep c1 (c1.st.dot_print_time + c1.st.dot_feed_time)
        else c1
      bitmapLoop c2 x_bytes rest (i + 1)

/-- `Printer::print_bitmap`: emit the raster header
`[GS, 0x76, 0, mode, x_bytes, 0, y_bits as u8, 0]`, then the packed bytes
through `bitmapLoop`. -/
def print_bitmap (c : Sess) (bmp : Bmp) (mode : RasterBitImageMode) :
    Sess × Except PrintError Unit :=
  let x_bits := bmp.width
  let x_bytes := bmp_x_bytes x_bits
  let y_bits := bmp.height
  match write_bytes c [GS, 0x76, 0, mode.intoU8, x_bytes, 0, y_bits % U8MOD, 0] with
  | (c1, Except.error e) => (c1, Except.error e)
  | (c1, Except.ok _) => bitmapLoop c1 x_bytes (bmp_bytes bmp) 0

/-- Modelled from the spec: the claimed data emission of `print_bitmap`, in
which the extra row delay follows the LAST byte of every pixel row — "after
the last byte of every row, insert a timing delay equal to
`dot_print_time + dot_feed_time` ... inferred purely from byte position
modulo `bytesPerRow`".  Compared against `bitmapLoop`, which is the
source's actual loop. -/
def bitmapEmitRowEnd (dpt dft x_bytes : Nat) : List Nat → Nat → List Event
  | [], _ => []
  | b :: rest, i =>
    [Event.serialWrite b, Event.delayUs (BYTE_TIME_MICROS % U32MOD)] ++
      (if i % x_bytes == x_bytes - 1 then [Event.delayUs ((dpt + dft) % U32MOD)] else []) ++
      bitmapEmitRowEnd dpt dft x_bytes rest (i + 1)

/-! ## Shared helper lemmas -/

lemma byte_time_lt : BYTE_TIME_MICROS < U32MOD := by decide

lemma byte_time_mod : BYTE_TIME_MICROS % U32MOD = BYTE_TIME_MICROS := by decide

lemma sentBytes_append (t1 t2 : List Event) :
    sentBytes (t1 ++ t2) = sentBytes t1 ++ sentBytes t2 := by
  induction t1 with
  | nil => rfl
  | cons e rest ih => cases e <;> simp [sentBytes, ih]

lemma write_byte_port (c : Sess) (b : Nat) : (write_byte c b).1.port = c.port := rfl

lemma write_byte_writes (c : Sess) (b : Nat) :
    (write_byte c b).1.writes = c.writes + 1 := rfl

lemma write_byte_st (c : Sess) (b : Nat) : (write_byte c b).1.st = c.st := rfl

lemma write_byte_trace (c : Sess) (b : Nat) :
    (write_byte c b).1.trace
      = c.trace ++ [Event.serialWrite b, Event.delayUs (BYTE_TIME_MICROS % U32MOD)] := by
  simp [write_byte, serial_write, sleep]

lemma write_byte_res (c : Sess) (b : Nat) :
    (write_byte c b).2
      = if c.port c.writes then Except.ok ()
        else Except.error PrintError.transmissionFailure := rfl

lemma write_one_port (c : Sess) (b : Nat) : (write_one c b).1.port = c.port := rfl

lemma write_one_writes (c : Sess) (b : Nat) :
    (write_one c b).1.writes = c.writes + 1 := rfl

lemma write_one_st (c : Sess) (b : Nat) :
    (write_one c b).1.st = write_one_cursor c.st b := rfl

lemma write_one_trace (c : Sess) (b : Nat) :
    (write_one c b).1.trace
      = c.trace ++ [Event.serialWrite b, Event.delayUs (write_one_wait c.st b % U32MOD)] := by
  simp [write_one, serial_write, sleep]

lemma write_one_res (c : Sess) (b : Nat) :
    (write_one c b).2
      = if c.port c.writes then Except.ok ()
        else Except.error PrintError.transmissionFailure := rfl

lemma write_bytes_ok (bytes : List Nat) : ∀ c : Sess, (∀ k, c.port k = true) →
    (write_bytes c bytes).1.port = c.port
    ∧ (write_bytes c bytes).1.writes = c.writes + bytes.length
    ∧ (write_bytes c bytes).1.st = c.st
    ∧ (write_bytes c bytes).1.trace = c.trace ++
        (bytes.map (fun b =>
          [Event.serialWrite b, Event.delayUs (BYTE_TIME_MICROS % U32MOD)])).flatten
    ∧ (write_bytes c bytes).2 = Except.ok () := by
  induction bytes with
  | nil =>
    intro c _
    exact ⟨rfl, by simp [write_bytes], rfl, by simp [write_bytes], rfl⟩
  | cons b rest ih =>
    intro c hok
    have hres : (write_byte c b).2 = Except.ok () := by
      simp [write_byte_res, hok]
    have hw : write_byte c b = ((write_byte c b).1, Except.ok ()) :=
      Prod.ext rfl hres
    have hstep : write_bytes c (b :: rest) = write_bytes (write_byte c b).1 rest := by
      simp only [write_bytes]
      rw [hw]
    have hok1 : ∀ k, (write_byte c b).1.port k = true := by
      intro k; rw [write_byte_port]; exact hok k
    obtain ⟨hp, hn, hs, ht, hr⟩ := ih (write_byte c b).1 hok1
    refine ⟨?_, ?_, ?_, ?_, ?_⟩
    · rw [hstep, hp, write_byte_port]
    · rw [hstep, hn, write_byte_writes]; simp [List.length_cons]; omega
    · rw [hstep, hs, write_byte_st]
    · rw [hstep, ht, write_byte_trace]
      simp [List.append_assoc]
    · rw [hstep, hr]

/-! ## C1: the print-mode byte and the redundant per-flag commands -/

/-- The print mode of claim C1: font A, inverse, emphasized. -/
def modeC1 : PrintMode :=
  { font := Font.FontA, inverse := true, upside_down := false, emph := true,
    double_height := false, double_width := false, delete_line := false }

/-- C1 (counterexample): the mode byte for font A + inverse + emph is not
`0b0001_0010` — the code sets bit 1 (inverse) and bit 3 (emph), which is
`0b0000_1010`, while the claimed literal has bits 1 and 4. -/
theorem C1_counterexample : PrintMode.intoU8 modeC1 ≠ 0b00010010 := by decide

/-- C1 (amended): the mode byte for font A + inverse + emph is
`0b0000_1010`, and `set_print_mode` emits `[ESC, 0x21, modeByte]` followed
by exactly the three redundant per-flag commands in the fixed order
inverse, upside-down, emphasized, each as its dedicated prefix followed by
the flag value byte, with the upside-down command's trailing byte 0. -/
theorem C1_theorem :
    PrintMode.intoU8 modeC1 = 0b00001010
    ∧ sentBytes ((set_print_mode (newSess okPort) modeC1).1.trace)
        = [ESC, MARK, 0b00001010, GS, 0x42, 1, ESC, 0x7B, 0, ESC, 0x45, 1] := by
  decide

/-! ## C2: the per-byte transmission time constant -/

/-- C2 (counterexample): the ceiling of `(11 * 1000000 + BAUDRATE / 2) /
BAUDRATE` is 574, but `BYTE_TIME_MICROS` is 573 — the code uses floor
(round-half-up) division, not ceiling division. -/
theorem C2_counterexample :
    (11 * 1000000 + BAUDRATE / 2 + (BAUDRATE - 1)) / BAUDRATE = 574
    ∧ BYTE_TIME_MICROS ≠ (11 * 1000000 + BAUDRATE / 2 + (BAUDRATE - 1)) / BAUDRATE := by
  decide

/-- C2 (amended): `BYTE_TIME_MICROS` is the floor of `(11 * 1000000 +
BAUDRATE / 2) / BAUDRATE` — witnessed by the two-sided floor-division
bounds — and for the configured 19 200-baud link it evaluates to exactly
573 microseconds. -/
theorem C2_theorem :
    BYTE_TIME_MICROS = 573
    ∧ BYTE_TIME_MICROS * BAUDRATE ≤ 11 * 1000000 + BAUDRATE / 2
    ∧ 11 * 1000000 + BAUDRATE / 2 < (BYTE_TIME_MICROS + 1) * BAUDRATE := by
  decide

/-! ## C5: line-break timing -/

/-- C5: writing a line-break byte through `write_one` after printable
characters (previous byte not a line break) waits
`base + char_height * dot_print_time + line_spacing * dot_feed_time`;
immediately after another line break it waits
`base + (char_height + line_spacing) * dot_feed_time`, with no
`dot_print_time` term.  The two side conditions say the computed waits fit
the `u32` of the delay capability (they always do in reachable sessions,
where the dot timing fields are zero). -/
theorem C5_theorem (c : Sess)
    (hf1 : BYTE_TIME_MICROS + (c.st.char_height * c.st.dot_print_time
            + c.st.line_spacing * c.st.dot_feed_time) < U32MOD)
    (hf2 : BYTE_TIME_MICROS
            + (c.st.char_height + c.st.line_spacing) * c.st.dot_feed_time < U32MOD) :
    (c.st.prev_byte ≠ 10 →
      (write_one c 10).1.trace = c.trace ++ [Event.serialWrite 10,
        Event.delayUs (BYTE_TIME_MICROS + (c.st.char_height * c.st.dot_print_time
          + c.st.line_spacing * c.st.dot_feed_time))])
    ∧ (c.st.prev_byte = 10 →
      (write_one c 10).1.trace = c.trace ++ [Event.serialWrite 10,
        Event.delayUs (BYTE_TIME_MICROS
          + (c.st.char_height + c.st.line_spacing) * c.st.dot_feed_time)]) := by
  constructor
  · intro h
    have hb : (c.st.prev_byte == 10) = false := beq_eq_false_iff_ne.mpr h
    have hwait : write_one_wait c.st 10
        = BYTE_TIME_MICROS + (c.st.char_height * c.st.dot_print_time
            + c.st.line_spacing * c.st.dot_feed_time) := by
      simp [write_one_wait, hb]
    rw [write_one_trace, hwait, Nat.mod_eq_of_lt hf1]
  · intro h
    have hb : (c.st.prev_byte == 10) = true := by rw [h]; exact beq_self_eq_true 10
    have hwait : write_one_wait c.st 10
        = BYTE_TIME_MICROS
            + (c.st.char_height + c.st.line_spacing) * c.st.dot_feed_time := by
      simp [write_one_wait, hb]
    rw [write_one_trace, hwait, Nat.mod_eq_of_lt hf2]

/-- A session whose previous byte is a printable character. -/
def cPrinted : Sess :=
  { port := okPort, writes := 0, st := { newPState with prev_byte := 65 }, trace := [] }

/-- C5 (witness): concrete evaluations of both line-break waits — after a
printable byte and after a line break — in a default-metric session. -/
theorem C5_witness :
    (write_one cPrinted 10).1.trace = [Event.serialWrite 10, Event.delayUs 573]
    ∧ (write_one (newSess okPort) 10).1.trace
        = [Event.serialWrite 10, Event.delayUs 573] := by
  have h1 := C5_theorem cPrinted (by decide) (by decide)
  have h2 := C5_theorem (newSess okPort) (by decide) (by decide)
  exact ⟨(h1.1 (by decide)).trans (by decide), (h2.2 (by decide)).trans (by decide)⟩

/-! ## C6: horizontal tab advance and the wrap boundary -/

/-- A session sitting five columns into a line. -/
def cFive : Sess :=
  { port := okPort, writes := 0, st := { newPState with current_column := 5 },
    trace := [] }

/-- A session whose column has just reached `max_column`. -/
def cAtMax : Sess :=
  { port := okPort, writes := 0, st := { newPState with current_column := 32 },
    trace := [] }

/-- A session whose column has overshot `max_column` (reachable via a tab
near the right margin). -/
def cOver : Sess :=
  { port := okPort, writes := 0, st := { newPState with current_column := 33 },
    trace := [] }

/-- C6 (counterexample): at `current_column = 33 ≥ max_column = 32`,
writing a printable byte does NOT fire a forced wrap — the column advances
to 34 and the previous-byte marker becomes the byte itself — because the
source tests `current_column == max_column`, not `>=`. -/
theorem C6_counterexample :
    cOver.st.max_column ≤ cOver.st.current_column
    ∧ (write_one cOver 65).1.st.current_column = 34
    ∧ (write_one cOver 65).1.st.prev_byte = 65 := by decide

/-- C6 (amended): a horizontal tab at `current_column = c ≠ max_column`
advances the column by `c / 4 + 2` in total (its own skip of `c / 4 + 1`
plus the unconditional `+ 1`), provided the `u8` column does not wrap; and
exactly at `c = max_column` (not for every `c ≥ max_column`) writing any
byte fires a forced wrap identical to an explicit line break: same
resulting cursor state (column 0, previous byte marked a line break) and
same computed wait. -/
theorem C6_theorem (c : Sess) (b : Nat)
    (hov : c.st.current_column + c.st.current_column / TAB_WIDTH + 2 < U8MOD) :
    (c.st.current_column ≠ c.st.max_column →
      (write_one c HT).1.st.current_column
        = c.st.current_column + c.st.current_column / TAB_WIDTH + 2)
    ∧ (c.st.current_column = c.st.max_column →
      ((write_one c b).1.st = (write_one c 10).1.st
        ∧ (write_one c b).1.st.current_column = 0
        ∧ (write_one c b).1.st.prev_byte = 10
        ∧ write_one_wait c.st b = write_one_wait c.st 10)) := by
  constructor
  · intro h
    have hb : (c.st.current_column == c.st.max_column) = false :=
      beq_eq_false_iff_ne.mpr h
    rw [write_one_st]
    simp only [write_one_cursor, HT, hb]
    norm_num
    simp only [U8MOD] at hov ⊢
    simp only [TAB_WIDTH] at hov ⊢
    omega
  · intro h
    have hb : (c.st.current_column == c.st.max_column) = true := by
      rw [h]; exact beq_self_eq_true _
    refine ⟨?_, ?_, ?_, ?_⟩
    · rw [write_one_st, write_one_st]
      simp [write_one_cursor, hb]
    · rw [write_one_st]; simp [write_one_cursor, hb]
    · rw [write_one_st]; simp [write_one_cursor, hb]
    · simp [write_one_wait, hb]

/-- C6 (witness): a tab at column 5 lands on column 8, and at
`current_column = max_column` a printable byte wraps to column 0. -/
theorem C6_witness :
    (write_one cFive HT).1.st.current_column = 8
    ∧ (write_one cAtMax 65).1.st.current_column = 0 := by
  have h1 := C6_theorem cFive 65 (by decide)
  have h2 := C6_theorem cAtMax 65 (by decide)
  exact ⟨(h1.1 (by decide)).trans (by decide), (h2.2 (by decide)).2.1⟩

/-! ## C3: the column invariant of the text path -/

lemma write_one_cursor_col (s : PState) (b : Nat)
    (h1 : s.current_column ≤ s.max_column) (h2 : s.max_column < U8MOD)
    (hb : b ≠ HT) :
    (write_one_cursor s b).current_column ≤ s.max_column
    ∧ (write_one_cursor s b).max_column = s.max_column := by
  unfold write_one_cursor
  by_cases hw : (b == 10 || s.current_column == s.max_column) = true
  · rw [if_pos hw]
    exact ⟨Nat.zero_le _, rfl⟩
  · rw [if_neg hw]
    have hbe : (b == HT) = false := beq_eq_false_iff_ne.mpr hb
    have hcolne : s.current_column ≠ s.max_column := by
      intro he
      exact hw (by simp [he])
    constructor
    · simp only [hbe, Bool.false_eq_true, if_false]
      simp only [U8MOD] at h2 ⊢
      omega
    · simp [hbe]

lemma write_col_invariant (bytes : List Nat) : ∀ c : Sess,
    c.st.current_column ≤ c.st.max_column → c.st.max_column < U8MOD →
    (∀ b ∈ bytes, b ≠ HT) →
    (write c bytes).1.st.current_column ≤ c.st.max_column
    ∧ (write c bytes).1.st.max_column = c.st.max_column := by
  induction bytes with
  | nil =>
    intro c h1 _ _
    exact ⟨h1, rfl⟩
  | cons b rest ih =>
    intro c h1 h2 hno
    have hbne : b ≠ HT := hno b (List.mem_cons_self b rest)
    have hcur := write_one_cursor_col c.st b h1 h2 hbne
    by_cases hp : c.port c.writes = true
    · have hres : (write_one c b).2 = Except.ok () := by
        simp [write_one_res, hp]
      have hw : write_one c b = ((write_one c b).1, Except.ok ()) :=
        Prod.ext rfl hres
      have hstep : write c (b :: rest) = write (write_one c b).1 rest := by
        simp only [write]
        rw [hw]
      have h1' : (write_one c b).1.st.current_column
          ≤ (write_one c b).1.st.max_column := by
        rw [write_one_st, hcur.2]
        exact hcur.1
      have h2' : (write_one c b).1.st.max_column < U8MOD := by
        rw [write_one_st, hcur.2]
        exact h2
      have hno' : ∀ x ∈ rest, x ≠ HT := fun x hx => hno x (List.mem_cons_of_mem b hx)
      obtain ⟨ha, hm⟩ := ih (write_one c b).1 h1' h2' hno'
      rw [write_one_st, hcur.2] at ha hm
      exact ⟨by rw [hstep]; exact ha, by rw [hstep]; exact hm⟩
    · have hres : (write_one c b).2 = Except.error PrintError.transmissionFailure := by
        simp [write_one_res, hp]
      have hw : write_one c b
          = ((write_one c b).1, Except.error PrintError.transmissionFailure) :=
        Prod.ext rfl hres
      have hstep : write c (b :: rest)
          = ((write_one c b).1, Except.error PrintError.transmissionFailure) := by
        simp only [write]
        rw [hw]
      rw [hstep]
      exact ⟨by rw [write_one_st]; exact hcur.1, by rw [write_one_st]; exact hcur.2⟩

/-- C3 (counterexample): 31 printable bytes followed by one horizontal tab,
written from a fresh session, leave `current_column = 40`, strictly above
`max_column = 32` — the tab's multi-column skip jumps over the
`current_column == max_column` wrap test, so the claimed invariant fails on
the tab-bearing text path. -/
theorem C3_counterexample :
    (newSess okPort).st.max_column
      < (write (newSess okPort) (List.replicate 31 65 ++ [HT])).1.st.current_column := by
  decide

/-- C3 (amended): for every sequence of non-tab bytes written through the
text path, `current_column` never exceeds `max_column` after any prefix
(given a `u8`-valid starting state already satisfying the invariant), and
whenever `current_column` reaches `max_column` the next byte fires a forced
wrap identical in cursor effect and computed wait to an explicit line-break
byte. -/
theorem C3_theorem (c : Sess) (bytes : List Nat)
    (h1 : c.st.current_column ≤ c.st.max_column)
    (h2 : c.st.max_column < U8MOD)
    (hno : ∀ b ∈ bytes, b ≠ HT) :
    (∀ n, (write c (bytes.take n)).1.st.current_column ≤ c.st.max_column)
    ∧ (∀ b, c.st.current_column = c.st.max_column →
        ((write_one c b).1.st = (write_one c 10).1.st
          ∧ (write_one c b).1.st.current_column = 0
          ∧ (write_one c b).1.st.prev_byte = 10
          ∧ write_one_wait c.st b = write_one_wait c.st 10)) := by
  constructor
  · intro n
    have hno' : ∀ b ∈ bytes.take n, b ≠ HT :=
      fun b hb => hno b (List.take_subset n bytes hb)
    exact (write_col_invariant (bytes.take n) c h1 h2 hno').1
  · intro b h
    have hb : (c.st.current_column == c.st.max_column) = true := by
      rw [h]; exact beq_self_eq_true _
    refine ⟨?_, ?_, ?_, ?_⟩
    · rw [write_one_st, write_one_st]
      simp [write_one_cursor, hb]
    · rw [write_one_st]
      simp [write_one_cursor, hb]
    · rw [write_one_st]
      simp [write_one_cursor, hb]
    · simp [write_one_wait, hb]

/-- C3 (witness): a two-byte printable write from a fresh session keeps the
column within `max_column`, and a byte written at the wrap boundary resets
the column to 0. -/
theorem C3_witness :
    (write (newSess okPort) ([65, 66].take 2)).1.st.current_column
        ≤ (newSess okPort).st.max_column
    ∧ (write_one cAtMax 66).1.st.current_column = 0 := by
  have ha := C3_theorem (newSess okPort) [65, 66] (by decide) (by decide) (by decide)
  have hb := C3_theorem cAtMax [] (by decide) (by decide) (by simp)
  exact ⟨ha.1 2, (hb.2 66 (by decide)).2.1⟩

/-! ## C7: abort-on-failure for multi-byte frames -/

lemma write_bytes_abort (bytes : List Nat) : ∀ c : Sess,
    ((write_bytes c bytes).2 = Except.ok ()
      ∧ sentBytes (write_bytes c bytes).1.trace = sentBytes c.trace ++ bytes)
    ∨ (∃ k, k < bytes.length
        ∧ c.port (c.writes + k) = false
        ∧ (∀ j, j < k → c.port (c.writes + j) = true)
        ∧ (write_bytes c bytes).2 = Except.error PrintError.transmissionFailure
        ∧ sentBytes (write_bytes c bytes).1.trace
            = sentBytes c.trace ++ bytes.take (k + 1)) := by
  induction bytes with
  | nil =>
    intro c
    left
    exact ⟨rfl, by simp [write_bytes]⟩
  | cons b rest ih =>
    intro c
    have htr : sentBytes (write_byte c b).1.trace = sentBytes c.trace ++ [b] := by
      rw [write_byte_trace, sentBytes_append]
      rfl
    by_cases hp : c.port c.writes = true
    · have hres : (write_byte c b).2 = Except.ok () := by
        simp [write_byte_res, hp]
      have hw : write_byte c b = ((write_byte c b).1, Except.ok ()) :=
        Prod.ext rfl hres
      have hstep : write_bytes c (b :: rest) = write_bytes (write_byte c b).1 rest := by
        simp only [write_bytes]
        rw [hw]
      rcases ih (write_byte c b).1 with ⟨hok, hs⟩ | ⟨k, hk, hf, hmin, herr, hs⟩
      · left
        refine ⟨by rw [hstep]; exact hok, ?_⟩
        rw [hstep, hs, htr]
        simp
      · right
        refine ⟨k + 1, by simpa using Nat.succ_lt_succ hk, ?_, ?_, ?_, ?_⟩
        · rw [write_byte_port, write_byte_writes] at hf
          have he : c.writes + (k + 1) = c.writes + 1 + k := by omega
          rw [he]
          exact hf
        · intro j hj
          match j with
          | 0 => simpa using hp
          | j + 1 =>
            have hj' : j < k := by omega
            have := hmin j hj'
            rw [write_byte_port, write_byte_writes] at this
            have he : c.writes + (j + 1) = c.writes + 1 + j := by omega
            rw [he]
            exact this
        · rw [hstep]
          exact herr
        · rw [hstep, hs, htr]
          simp [List.take_succ_cons]
    · have hres : (write_byte c b).2 = Except.error PrintError.transmissionFailure := by
        simp [write_byte_res, hp]
      have hw : write_byte c b
          = ((write_byte c b).1, Except.error PrintError.transmissionFailure) :=
        Prod.ext rfl hres
      have hstep : write_bytes c (b :: rest)
          = ((write_byte c b).1, Except.error PrintError.transmissionFailure) := by
        simp only [write_bytes]
        rw [hw]
      right
      refine ⟨0, by simp, by simpa using hp, by omega, by rw [hstep], ?_⟩
      rw [hstep]
      simpa using htr

lemma write_abort (bytes : List Nat) : ∀ c : Sess,
    ((write c bytes).2 = Except.ok ()
      ∧ sentBytes (write c bytes).1.trace = sentBytes c.trace ++ bytes)
    ∨ (∃ k, k < bytes.length
        ∧ c.port (c.writes + k) = false
        ∧ (∀ j, j < k → c.port (c.writes + j) = true)
        ∧ (write c bytes).2 = Except.error PrintError.transmissionFailure
        ∧ sentBytes (write c bytes).1.trace
            = sentBytes c.trace ++ bytes.take (k + 1)) := by
  induction bytes with
  | nil =>
    intro c
    left
    exact ⟨rfl, by simp [write]⟩
  | cons b rest ih =>
    intro c
    have htr : sentBytes (write_one c b).1.trace = sentBytes c.trace ++ [b] := by
      rw [write_one_trace, sentBytes_append]
      rfl
    by_cases hp : c.port c.writes = true
    · have hres : (write_one c b).2 = Except.ok () := by
        simp [write_one_res, hp]
      have hw : write_one c b = ((write_one c b).1, Except.ok ()) :=
        Prod.ext rfl hres
      have hstep : write c (b :: rest) = write (write_one c b).1 rest := by
        simp only [write]
        rw [hw]
      rcases ih (write_one c b).1 with ⟨hok, hs⟩ | ⟨k, hk, hf, hmin, herr, hs⟩
      · left
        refine ⟨by rw [hstep]; exact hok, ?_⟩
        rw [hstep, hs, htr]
        simp
      · right
        refine ⟨k + 1, by simpa using Nat.succ_lt_succ hk, ?_, ?_, ?_, ?_⟩
        · rw [write_one_port, write_one_writes] at hf
          have he : c.writes + (k + 1) = c.writes + 1 + k := by omega
          rw [he]
          exact hf
        · intro j hj
          match j with
          | 0 => simpa using hp
          | j + 1 =>
            have hj' : j < k := by omega
            have := hmin j hj'
            rw [write_one_port, write_one_writes] at this
            have he : c.writes + (j + 1) = c.writes + 1 + j := by omega
            rw [he]
            exact this
        · rw [hstep]
          exact herr
        · rw [hstep, hs, htr]
          simp [List.take_succ_cons]
    · have hres : (write_one c b).2 = Except.error PrintError.transmissionFailure := by
        simp [write_one_res, hp]
      have hw : write_one c b
          = ((write_one c b).1, Except.error PrintError.transmissionFailure) :=
        Prod.ext rfl hres
      have hstep : write c (b :: rest)
          = ((write_one c b).1, Except.error PrintError.transmissionFailure) := by
        simp only [write]
        rw [hw]
      right
      refine ⟨0, by simp, by simpa using hp, by omega, by rw [hstep], ?_⟩
      rw [hstep]
      simpa using htr

/-- C7: on both multi-byte paths (`write_bytes` for command frames,
`write` for text), either every byte of the frame reaches the transport
and the operation succeeds, or there is a first failing write at index `k`
(all earlier writes succeeded), the bytes handed to the transport are
exactly the frame's first `k + 1` bytes — nothing after the failing byte —
and the operation surfaces the single `transmissionFailure` error kind. -/
theorem C7_theorem (c : Sess) (bytes : List Nat) :
    (((write_bytes c bytes).2 = Except.ok ()
        ∧ sentBytes (write_bytes c bytes).1.trace = sentBytes c.trace ++ bytes)
      ∨ (∃ k, k < bytes.length
          ∧ c.port (c.writes + k) = false
          ∧ (∀ j, j < k → c.port (c.writes + j) = true)
          ∧ (write_bytes c bytes).2 = Except.error PrintError.transmissionFailure
          ∧ sentBytes (write_bytes c bytes).1.trace
              = sentBytes c.trace ++ bytes.take (k + 1)))
    ∧ (((write c bytes).2 = Except.ok ()
        ∧ sentBytes (write c bytes).1.trace = sentBytes c.trace ++ bytes)
      ∨ (∃ k, k < bytes.length
          ∧ c.port (c.writes + k) = false
          ∧ (∀ j, j < k → c.port (c.writes + j) = true)
          ∧ (write c bytes).2 = Except.error PrintError.transmissionFailure
          ∧ sentBytes (write c bytes).1.trace
              = sentBytes c.trace ++ bytes.take (k + 1))) :=
  ⟨write_bytes_abort bytes c, write_abort bytes c⟩

/-! ## C9: the per-byte delay fires even on a failed write -/

lemma write_one_wait_ge (s : PState) (b : Nat) :
    BYTE_TIME_MICROS ≤ write_one_wait s b := by
  unfold write_one_wait
  split
  · split
    · exact Nat.le_add_right _ _
    · exact Nat.le_add_right _ _
  · exact Nat.le_refl _

/-- C9: for every byte pushed through `write_byte` or `write_one`, the
delay capability is invoked — right after the serial write, before the
result is surfaced — with a duration of at least `BYTE_TIME_MICROS`, and
this happens for every port oracle, i.e. also when the serial write of the
byte fails (the failure, when the oracle reports one, surfaces only in the
returned result).  The hypothesis says the computed wait fits the `u32`
cast of the delay capability; reachable sessions always satisfy it since
their dot timing fields are zero. -/
theorem C9_theorem (c : Sess) (b : Nat)
    (hfit : write_one_wait c.st b < U32MOD) :
    ((write_byte c b).1.trace
        = c.trace ++ [Event.serialWrite b, Event.delayUs BYTE_TIME_MICROS]
      ∧ ((write_byte c b).2 = Except.error PrintError.transmissionFailure
          ↔ c.port c.writes = false))
    ∧ (∃ w, BYTE_TIME_MICROS ≤ w
        ∧ (write_one c b).1.trace = c.trace ++ [Event.serialWrite b, Event.delayUs w]
        ∧ ((write_one c b).2 = Except.error PrintError.transmissionFailure
            ↔ c.port c.writes = false)) := by
  refine ⟨⟨?_, ?_⟩, ⟨write_one_wait c.st b, write_one_wait_ge c.st b, ?_, ?_⟩⟩
  · rw [write_byte_trace, byte_time_mod]
  · rw [write_byte_res]
    cases hpc : c.port c.writes <;> simp
  · rw [write_one_trace, Nat.mod_eq_of_lt hfit]
  · rw [write_one_res]
    cases hpc : c.port c.writes <;> simp

/-- C9 (witness): on an all-failing port, the byte still reaches the
transport, the full `BYTE_TIME_MICROS` delay is still requested, and only
then does the failure surface. -/
theorem C9_witness :
    (write_byte (newSess failPort) 65).1.trace
        = [Event.serialWrite 65, Event.delayUs BYTE_TIME_MICROS]
    ∧ (write_byte (newSess failPort) 65).2
        = Except.error PrintError.transmissionFailure := by
  have h := C9_theorem (newSess failPort) 65 (by decide)
  exact ⟨(h.1.1).trans (by decide), (h.1.2).mpr rfl⟩

/-! ## C8: heat-settings encoding round-trip -/

/-- C8: for every settings triple the encoding is exactly the three raw
bytes `[dots, time, interval]` in that order, `set_print_settings` puts
them on the wire framed as `[ESC, 0x37, dots, time, interval]`, and
decoding the encoded frame recovers the original triple. -/
theorem C8_theorem (p : PrintSettings) :
    p.intoBytes = [p.dots, p.time, p.interval]
    ∧ sentBytes ((set_print_settings (newSess okPort) p).1.trace)
        = [ESC, 0x37, p.dots, p.time, p.interval]
    ∧ decode_print_settings (ESC :: 0x37 :: p.intoBytes) = some p :=
  ⟨rfl, rfl, rfl⟩

/-! ## C10: feed_n frame, delay, and cursor reset -/

/-- C10: `feed_n` emits exactly `[ESC, 0x4A, n]` (each followed by the
fixed byte delay), then requests one extra block of exactly
`char_height * dot_feed_time` microseconds — independent of `n` — and
afterwards its cursor state equals the state an explicit line-break byte
would produce: column 0, previous byte marked a line break, so the next
text byte is timed as if it followed an explicit line break.  The fit
hypothesis discharges the `u32` cast of the delay (always satisfied in
reachable sessions, whose `dot_feed_time` is zero). -/
theorem C10_theorem (c : Sess) (n : Nat)
    (hok : ∀ k, c.port k = true)
    (hfit : c.st.char_height * c.st.dot_feed_time < U32MOD) :
    (feed_n c n).1.trace = c.trace ++
      [Event.serialWrite ESC, Event.delayUs BYTE_TIME_MICROS,
       Event.serialWrite 0x4A, Event.delayUs BYTE_TIME_MICROS,
       Event.serialWrite n, Event.delayUs BYTE_TIME_MICROS,
       Event.delayUs (c.st.char_height * c.st.dot_feed_time)]
    ∧ (feed_n c n).1.st = write_one_cursor c.st 10
    ∧ (feed_n c n).2 = Except.ok () := by
  obtain ⟨hp, hn, hs, ht, hr⟩ := write_bytes_ok [ESC, 0x4A, n] c hok
  have hw : write_bytes c [ESC, 0x4A, n]
      = ((write_bytes c [ESC, 0x4A, n]).1, Except.ok ()) :=
    Prod.ext rfl hr
  have hstep : feed_n c n
      = (let c1 := (write_bytes c [ESC, 0x4A, n]).1
         let c2 := sleep c1 (c1.st.dot_feed_time * c1.st.char_height)
         ({ c2 with st := { c2.st with prev_byte := 10, current_column := 0 } },
          Except.ok ())) := by
    simp only [feed_n]
    rw [hw]
  have hmod : (c.st.dot_feed_time * c.st.char_height) % U32MOD
      = c.st.char_height * c.st.dot_feed_time := by
    rw [Nat.mul_comm]
    exact Nat.mod_eq_of_lt hfit
  refine ⟨?_, ?_, ?_⟩
  · rw [hstep]
    show ((write_bytes c [ESC, 0x4A, n]).1.trace
        ++ [Event.delayUs (((write_bytes c [ESC, 0x4A, n]).1.st.dot_feed_time
              * (write_bytes c [ESC, 0x4A, n]).1.st.char_height) % U32MOD)]) = _
    rw [ht, hs, hmod, byte_time_mod]
    simp
  · rw [hstep]
    show { (write_bytes c [ESC, 0x4A, n]).1.st with
            prev_byte := 10, current_column := 0 } = _
    rw [hs]
    simp [write_one_cursor]
  · rw [hstep]

/-- C10 (witness): a concrete three-line feed from a fresh session — the
fixed 573µs byte delays, a zero-length feed block (the dot feed time of a
fresh session is zero), and the start-of-line cursor state. -/
theorem C10_witness :
    (feed_n (newSess okPort) 3).1.trace
      = [Event.serialWrite ESC, Event.delayUs BYTE_TIME_MICROS,
         Event.serialWrite 0x4A, Event.delayUs BYTE_TIME_MICROS,
         Event.serialWrite 3, Event.delayUs BYTE_TIME_MICROS,
         Event.delayUs 0]
    ∧ (feed_n (newSess okPort) 3).1.st = write_one_cursor (newSess okPort).st 10 := by
  have h := C10_theorem (newSess okPort) 3 (fun _ => rfl) (by decide)
  exact ⟨(h.1).trans (by decide), h.2.1⟩

/-! ## C4: placement of the bitmap row delay -/

lemma bitmapLoop_ok (x_bytes : Nat) (bytes : List Nat) : ∀ (c : Sess) (i : Nat),
    (∀ k, c.port k = true) →
    (bitmapLoop c x_bytes bytes i).1.trace = c.trace ++
      ((List.enumFrom i bytes).map (fun p =>
        [Event.serialWrite p.2, Event.delayUs (BYTE_TIME_MICROS % U32MOD)]
        ++ (if (p.1 % U8MOD) % x_bytes == 0
            then [Event.delayUs ((c.st.dot_print_time + c.st.dot_feed_time) % U32MOD)]
            else []))).flatten
    ∧ (bitmapLoop c x_bytes bytes i).1.st = c.st
    ∧ (bitmapLoop c x_bytes bytes i).1.port = c.port
    ∧ (bitmapLoop c x_bytes bytes i).2 = Except.ok () := by
  induction bytes with
  | nil =>
    intro c i hok
    exact ⟨by simp [bitmapLoop, List.enumFrom], rfl, rfl, rfl⟩
  | cons b rest ih =>
    intro c i hok
    have hres : (write_byte c b).2 = Except.ok () := by
      simp [write_byte_res, hok]
    have hw : write_byte c b = ((write_byte c b).1, Except.ok ()) :=
      Prod.ext rfl hres
    by_cases hcond : ((i % U8MOD) % x_bytes == 0) = true
    · have hstep : bitmapLoop c x_bytes (b :: rest) i
          = bitmapLoop (sleep (write_byte c b).1
              ((write_byte c b).1.st.dot_print_time
                + (write_byte c b).1.st.dot_feed_time)) x_bytes rest (i + 1) := by
        simp only [bitmapLoop]
        rw [hw]
        simp [hcond]
      have hok2 : ∀ k, (sleep (write_byte c b).1
          ((write_byte c b).1.st.dot_print_time
            + (write_byte c b).1.st.dot_feed_time)).port k = true := fun k => hok k
      obtain ⟨ht, hs, hp2, hr2⟩ := ih (sleep (write_byte c b).1
          ((write_byte c b).1.st.dot_print_time
            + (write_byte c b).1.st.dot_feed_time)) (i + 1) hok2
      have hcond' : i % U8MOD % x_bytes = 0 := by simpa using hcond
      refine ⟨?_, ?_, ?_, ?_⟩
      · rw [hstep, ht]
        simp [sleep, write_byte_trace, write_byte_st, List.enumFrom, hcond',
          List.append_assoc]
      · rw [hstep, hs]
        rfl
      · rw [hstep, hp2]
        rfl
      · rw [hstep, hr2]
    · have hstep : bitmapLoop c x_bytes (b :: rest) i
          = bitmapLoop (write_byte c b).1 x_bytes rest (i + 1) := by
        simp only [bitmapLoop]
        rw [hw]
        simp [hcond]
      have hok2 : ∀ k, (write_byte c b).1.port k = true := fun k => hok k
      obtain ⟨ht, hs, hp2, hr2⟩ := ih (write_byte c b).1 (i + 1) hok2
      have hcond' : ¬(i % U8MOD % x_bytes = 0) := by simpa using hcond
      refine ⟨?_, ?_, ?_, ?_⟩
      · rw [hstep, ht]
        simp [write_byte_trace, write_byte_st, List.enumFrom, hcond',
          List.append_assoc]
      · rw [hstep, hs]
        rfl
      · rw [hstep, hp2]
        rfl
      · rw [hstep, hr2]

/-- The 16 × 2 all-black test image: two complete pixel rows, every pixel
raw color 0 (below the cutoff, so every bit prints). -/
def bmp16 : Bmp :=
  { width := 16, height := 2, rows := [List.replicate 16 0, List.replicate 16 0] }

/-- C4 (counterexample): for the 16 × 2 all-black image (`bytesPerRow = 2`,
packed bytes `[255, 255, 255, 255]`) the trace actually produced by
`print_bitmap` differs from the spec-described emission in which the extra
`dot_print_time + dot_feed_time` delay follows the LAST byte of every row:
the code inserts the delay when `i as u8 % bytesPerRow == 0`, i.e. after
the FIRST byte of each row. -/
theorem C4_counterexample :
    (print_bitmap (newSess okPort) bmp16 RasterBitImageMode.Normal).1.trace
      ≠ ([GS, 0x76, 0, 0, 2, 0, 2, 0].map (fun b =>
            [Event.serialWrite b, Event.delayUs (BYTE_TIME_MICROS % U32MOD)])).flatten
        ++ bitmapEmitRowEnd 0 0 2 (bmp_bytes bmp16) 0 := by
  decide

/-- C4 (amended): `print_bitmap` emits the packed image bytes sequentially
and inserts the extra `dot_print_time + dot_feed_time` delay after exactly
those bytes whose index `i` satisfies `(i mod 256) mod bytesPerRow = 0` —
the FIRST byte of each pixel row (for images of at most 256 data bytes),
not the last; no other byte is followed by the extra delay. -/
theorem C4_theorem (c : Sess) (bmp : Bmp) (mode : RasterBitImageMode)
    (hok : ∀ k, c.port k = true) :
    (print_bitmap c bmp mode).1.trace = c.trace
      ++ ([GS, 0x76, 0, mode.intoU8, bmp_x_bytes bmp.width, 0,
            bmp.height % U8MOD, 0].map (fun b =>
            [Event.serialWrite b, Event.delayUs (BYTE_TIME_MICROS % U32MOD)])).flatten
      ++ ((List.enumFrom 0 (bmp_bytes bmp)).map (fun p =>
            [Event.serialWrite p.2, Event.delayUs (BYTE_TIME_MICROS % U32MOD)]
            ++ (if (p.1 % U8MOD) % bmp_x_bytes bmp.width == 0
                then [Event.delayUs ((c.st.dot_print_time + c.st.dot_feed_time) % U32MOD)]
                else []))).flatten := by
  obtain ⟨hp, hn, hs, ht, hr⟩ := write_bytes_ok
    [GS, 0x76, 0, mode.intoU8, bmp_x_bytes bmp.width, 0, bmp.height % U8MOD, 0] c hok
  have hw : write_bytes c
        [GS, 0x76, 0, mode.intoU8, bmp_x_bytes bmp.width, 0, bmp.height % U8MOD, 0]
      = ((write_bytes c
          [GS, 0x76, 0, mode.intoU8, bmp_x_bytes bmp.width, 0,
            bmp.height % U8MOD, 0]).1, Except.ok ()) :=
    Prod.ext rfl hr
  have hstep : print_bitmap c bmp mode
      = bitmapLoop (write_bytes c
          [GS, 0x76, 0, mode.intoU8, bmp_x_bytes bmp.width, 0,
            bmp.height % U8MOD, 0]).1 (bmp_x_bytes bmp.width) (bmp_bytes bmp) 0 := by
    simp only [print_bitmap]
    rw [hw]
  have hok1 : ∀ k, (write_bytes c
      [GS, 0x76, 0, mode.intoU8, bmp_x_bytes bmp.width, 0,
        bmp.height % U8MOD, 0]).1.port k = true := by
    intro k
    rw [hp]
    exact hok k
  obtain ⟨ht2, _, _, _⟩ := bitmapLoop_ok (bmp_x_bytes bmp.width) (bmp_bytes bmp)
    (write_bytes c
      [GS, 0x76, 0, mode.intoU8, bmp_x_bytes bmp.width, 0,
        bmp.height % U8MOD, 0]).1 0 hok1
  rw [hstep, ht2, hs, ht]

/-- C4 (witness): the amended placement evaluated on the 16 × 2 all-black
image in a fresh session — the extra (here zero-length) row delay follows
the bytes at indices 0 and 2, the first byte of each of the two rows. -/
theorem C4_witness :
    (print_bitmap (newSess okPort) bmp16 RasterBitImageMode.Normal).1.trace
      = [Event.serialWrite 0x1D, Event.delayUs 573,
         Event.serialWrite 0x76, Event.delayUs 573,
         Event.serialWrite 0, Event.delayUs 573,
         Event.serialWrite 0, Event.delayUs 573,
         Event.serialWrite 2, Event.delayUs 573,
         Event.serialWrite 0, Event.delayUs 573,
         Event.serialWrite 2, Event.delayUs 573,
         Event.serialWrite 0, Event.delayUs 573,
         Event.serialWrite 255, Event.delayUs 573, Event.delayUs 0,
         Event.serialWrite 255, Event.delayUs 573,
         Event.serialWrite 255, Event.delayUs 573, Event.delayUs 0,
         Event.serialWrite 255, Event.delayUs 573] := by
  have h := C4_theorem (newSess okPort) bmp16 RasterBitImageMode.Normal (fun _ => rfl)
  exact h.trans (by decide)

end ThermalPrint
